import Mathlib

/-!
# A verification development for a DNS forwarding server

Shallow embedding of the wire-level DNS codec of the repository
(`dns_header.rs`, `dns_question_and_answer.rs`, `dns_message.rs`,
`forwarder.rs`) into Lean.

Conventions of the embedding:
* Rust byte buffers (`&[u8]`, `Vec<u8>`) are `List Nat`, each element a byte
  value; machine-integer casts are made explicit with `% 256`, `% 65536`
  where the Rust code truncates.
* Rust `Result<T, String>` is `Except String T`.
* A Rust operation that can panic (out-of-bounds slicing, the oversized-label
  `panic!` in `encode_domain_name`) is wrapped in `Option`: `none` models a
  process-aborting panic, `some r` a normal return of `r`.
* Rust `String` values (domain names, labels) are their UTF-8 byte sequences,
  so `str::from_utf8` becomes a UTF-8 validity check on the raw bytes.
-/

namespace DnsCodec

/-- Big-endian recombination of two bytes, `u16::from_be_bytes([hi, lo])`. -/
def be16 (hi lo : Nat) : Nat := hi * 256 + lo

/-- `u16::to_be_bytes`: the two big-endian bytes of a 16-bit value. -/
def u16_be (x : Nat) : List Nat := [x / 256 % 256, x % 256]

/-- `u32::to_be_bytes`: the four big-endian bytes of a 32-bit value. -/
def u32_be (x : Nat) : List Nat :=
  [x / 16777216 % 256, x / 65536 % 256, x / 256 % 256, x % 256]

/-- `DnsHeader` from `dns_header.rs`: six 16-bit fields. -/
structure DnsHeader where
  id : Nat
  flags : Nat
  question_count : Nat
  answer_count : Nat
  authority_count : Nat
  additional_count : Nat
  deriving DecidableEq, Repr

/-- `DnsFlags` from `dns_header.rs`: the decoded view of `DnsHeader.flags`. -/
structure DnsFlags where
  qr : Bool
  opcode : Nat
  aa : Bool
  tc : Bool
  rd : Bool
  ra : Bool
  z : Nat
  rcode : Nat
  deriving DecidableEq, Repr

/-- `DnsFlags::to_u16`: pack the flag fields into a 16-bit word. -/
def DnsFlags.to_u16 (f : DnsFlags) : Nat :=
  (if f.qr then 1 <<< 15 else 0) |||
  ((f.opcode &&& 15) <<< 11) |||
  (if f.aa then 1 <<< 10 else 0) |||
  (if f.tc then 1 <<< 9 else 0) |||
  (if f.rd then 1 <<< 8 else 0) |||
  (if f.ra then 1 <<< 7 else 0) |||
  ((f.z &&& 7) <<< 4) |||
  (f.rcode &&& 15)

/-- `DnsFlags::from_u16`: unpack a 16-bit word into flag fields. -/
def DnsFlags.from_u16 (flags : Nat) : DnsFlags where
  qr := (flags &&& (1 <<< 15)) != 0
  opcode := (flags >>> 11) &&& 15
  aa := (flags &&& (1 <<< 10)) != 0
  tc := (flags &&& (1 <<< 9)) != 0
  rd := (flags &&& (1 <<< 8)) != 0
  ra := (flags &&& (1 <<< 7)) != 0
  z := (flags >>> 4) &&& 7
  rcode := flags &&& 15

/-- `DnsHeader::from_bytes`: decode the six big-endian fields from the first
12 bytes; error when fewer than 12 bytes are given. -/
def DnsHeader.from_bytes (bytes : List Nat) : Except String DnsHeader :=
  if bytes.length < 12 then
    Except.error "Buffer too small for DNS header"
  else
    Except.ok
      { id := be16 (bytes.getD 0 0) (bytes.getD 1 0)
        flags := be16 (bytes.getD 2 0) (bytes.getD 3 0)
        question_count := be16 (bytes.getD 4 0) (bytes.getD 5 0)
        answer_count := be16 (bytes.getD 6 0) (bytes.getD 7 0)
        authority_count := be16 (bytes.getD 8 0) (bytes.getD 9 0)
        additional_count := be16 (bytes.getD 10 0) (bytes.getD 11 0) }

/-- `DnsHeader::to_bytes`: the 12-byte wire form of a header. -/
def DnsHeader.to_bytes (h : DnsHeader) : List Nat :=
  u16_be h.id ++ u16_be h.flags ++ u16_be h.question_count ++
  u16_be h.answer_count ++ u16_be h.authority_count ++ u16_be h.additional_count

/-- `create_response_header` from `dns_message.rs`. -/
def create_response_header (request_header : DnsHeader) (answer_count : Nat) :
    DnsHeader :=
  let request_flags := DnsFlags.from_u16 request_header.flags
  let response_flags : DnsFlags :=
    { qr := true
      opcode := request_flags.opcode
      aa := false
      tc := false
      rd := request_flags.rd
      ra := false
      z := 0
      rcode := if request_flags.opcode = 0 then 0 else 4 }
  { id := request_header.id
    flags := response_flags.to_u16
    question_count := request_header.question_count
    answer_count := answer_count
    authority_count := 0
    additional_count := 0 }

/-- Rust `str::split('.')` on UTF-8 bytes: split a byte list at every `.`
(byte 46).  Like Rust, the empty string yields one empty piece and separators
at the ends yield empty pieces. -/
def splitOnDot : List Nat → List (List Nat)
  | [] => [[]]
  | b :: rest =>
    if b = 46 then [] :: splitOnDot rest
    else
      match splitOnDot rest with
      | [] => [[b]]
      | l :: ls => (b :: l) :: ls

/-- Rust `Vec::join(".")`: interleave byte 46 between the pieces. -/
def joinDots : List (List Nat) → List Nat
  | [] => []
  | [l] => l
  | l :: ls => l ++ 46 :: joinDots ls

/-- UTF-8 validity of a byte sequence, as checked by Rust
`str::from_utf8` (RFC 3629: no overlong forms, no surrogates,
nothing above U+10FFFF). -/
def utf8Valid : List Nat → Bool
  | [] => true
  | b :: rest =>
    if b ≤ 0x7F then utf8Valid rest
    else if 0xC2 ≤ b ∧ b ≤ 0xDF then
      match rest with
      | c :: rest2 => decide (0x80 ≤ c ∧ c ≤ 0xBF) && utf8Valid rest2
      | [] => false
    else if b = 0xE0 then
      match rest with
      | c :: d :: rest2 =>
          decide (0xA0 ≤ c ∧ c ≤ 0xBF) && decide (0x80 ≤ d ∧ d ≤ 0xBF) &&
          utf8Valid rest2
      | _ => false
    else if (0xE1 ≤ b ∧ b ≤ 0xEC) ∨ b = 0xEE ∨ b = 0xEF then
      match rest with
      | c :: d :: rest2 =>
          decide (0x80 ≤ c ∧ c ≤ 0xBF) && decide (0x80 ≤ d ∧ d ≤ 0xBF) &&
          utf8Valid rest2
      | _ => false
    else if b = 0xED then
      match rest with
      | c :: d :: rest2 =>
          decide (0x80 ≤ c ∧ c ≤ 0x9F) && decide (0x80 ≤ d ∧ d ≤ 0xBF) &&
          utf8Valid rest2
      | _ => false
    else if b = 0xF0 then
      match rest with
      | c :: d :: e :: rest2 =>
          decide (0x90 ≤ c ∧ c ≤ 0xBF) && decide (0x80 ≤ d ∧ d ≤ 0xBF) &&
          decide (0x80 ≤ e ∧ e ≤ 0xBF) && utf8Valid rest2
      | _ => false
    else if 0xF1 ≤ b ∧ b ≤ 0xF3 then
      match rest with
      | c :: d :: e :: rest2 =>
          decide (0x80 ≤ c ∧ c ≤ 0xBF) && decide (0x80 ≤ d ∧ d ≤ 0xBF) &&
          decide (0x80 ≤ e ∧ e ≤ 0xBF) && utf8Valid rest2
      | _ => false
    else if b = 0xF4 then
      match rest with
      | c :: d :: e :: rest2 =>
          decide (0x80 ≤ c ∧ c ≤ 0x8F) && decide (0x80 ≤ d ∧ d ≤ 0xBF) &&
          decide (0x80 ≤ e ∧ e ≤ 0xBF) && utf8Valid rest2
      | _ => false
    else false

/-- The loop body of `parse_domain_name` from `dns_question_and_answer.rs`,
with an explicit fuel argument bounding the number of loop iterations.
`none` means the fuel ran out (proved impossible for `parseFuel` below);
the remaining arguments are the loop state: current `offset`, the labels
collected so far, the `jumped` flag, `jump_offset` and the `jumps` counter. -/
def parseDomainNameAux (bytes : List Nat) :
    Nat → Nat → List (List Nat) → Bool → Nat → Nat →
    Option (Except String (List Nat × Nat))
  | 0, _, _, _, _, _ => none
  | fuel + 1, offset, labels, jumped, jumpOffset, jumps =>
    if bytes.length ≤ offset then
      some (Except.error "Offset out of bounds while parsing domain name")
    else if bytes.getD offset 0 &&& 192 = 192 then
      if bytes.length ≤ offset + 1 then
        some (Except.error "Incomplete pointer in domain name")
      else if 5 < jumps + 1 then
        some (Except.error "Too many jumps while parsing domain name")
      else
        parseDomainNameAux bytes fuel
          (be16 (bytes.getD offset 0 &&& 63) (bytes.getD (offset + 1) 0))
          labels true (if jumped then jumpOffset else offset + 2) (jumps + 1)
    else if bytes.getD offset 0 = 0 then
      some (Except.ok
        ((if labels.isEmpty then [46] else joinDots labels),
         if jumped then jumpOffset else offset + 1))
    else if bytes.length < offset + 1 + bytes.getD offset 0 then
      some (Except.error "Label extends beyond buffer")
    else if utf8Valid ((bytes.drop (offset + 1)).take (bytes.getD offset 0)) then
      parseDomainNameAux bytes fuel (offset + 1 + bytes.getD offset 0)
        (labels ++ [(bytes.drop (offset + 1)).take (bytes.getD offset 0)])
        jumped jumpOffset jumps
    else
      some (Except.error "Invalid UTF-8 in domain label")

/-- Fuel that always suffices for `parseDomainNameAux` (proved below). -/
def parseFuel (bytes : List Nat) : Nat := 7 * bytes.length + 13

/-- `parse_domain_name` from `dns_question_and_answer.rs`: decode a
(possibly compressed) domain name starting at `offset`, returning the name
and the offset at which the containing record resumes. -/
def parse_domain_name (bytes : List Nat) (offset : Nat) :
    Except String (List Nat × Nat) :=
  (parseDomainNameAux bytes (parseFuel bytes) offset [] false offset 0).getD
    (Except.error "unreachable: loop fuel exhausted")

/-- The label-emitting loop of `encode_domain_name`: encode the pieces of the
split name, skipping empty pieces, then a terminating zero byte.  `none`
models the Rust `panic!` on a label longer than 63 bytes. -/
def encodeLabels : List (List Nat) → Option (List Nat)
  | [] => some [0]
  | l :: ls =>
    if l.isEmpty then encodeLabels ls
    else if 63 < l.length then none
    else (encodeLabels ls).map (fun rest => l.length :: l ++ rest)

/-- `encode_domain_name` from `dns_question_and_answer.rs`.  `none` models
the process-aborting `panic!` on an oversized label. -/
def encode_domain_name (name : List Nat) : Option (List Nat) :=
  if name = [46] then some [0]
  else encodeLabels (splitOnDot name)

/-- `DnsQuestion` from `dns_question_and_answer.rs`; `name` is the UTF-8
byte sequence of the Rust `String`. -/
structure DnsQuestion where
  name : List Nat
  qtype : Nat
  qclass : Nat
  deriving DecidableEq, Repr

/-- `DnsAnswer` from `dns_question_and_answer.rs`. -/
structure DnsAnswer where
  name : List Nat
  rtype : Nat
  rclass : Nat
  ttl : Nat
  rdlength : Nat
  rdata : List Nat
  deriving DecidableEq, Repr

/-- `DnsQuestion::from_bytes`: a name followed by 4 bytes of type/class. -/
def DnsQuestion.from_bytes (bytes : List Nat) (offset : Nat) :
    Except String (DnsQuestion × Nat) :=
  match parse_domain_name bytes offset with
  | Except.error e => Except.error e
  | Except.ok (name, new_offset) =>
    if bytes.length < new_offset + 4 then
      Except.error "Buffer too small for question type and class"
    else
      Except.ok
        ({ name := name
           qtype := be16 (bytes.getD new_offset 0) (bytes.getD (new_offset + 1) 0)
           qclass := be16 (bytes.getD (new_offset + 2) 0) (bytes.getD (new_offset + 3) 0) },
         new_offset + 4)

/-- `DnsQuestion::to_bytes`; `none` models the encode-time `panic!`
propagated from `encode_domain_name`. -/
def DnsQuestion.to_bytes (q : DnsQuestion) : Option (List Nat) :=
  (encode_domain_name q.name).map
    (fun nb => nb ++ u16_be q.qtype ++ u16_be q.qclass)

/-- `DnsAnswer::from_bytes`: a name, 10 fixed bytes, then `rdlength` bytes
of rdata. -/
def DnsAnswer.from_bytes (bytes : List Nat) (offset : Nat) :
    Except String (DnsAnswer × Nat) :=
  match parse_domain_name bytes offset with
  | Except.error e => Except.error e
  | Except.ok (name, new_offset) =>
    if bytes.length < new_offset + 10 then
      Except.error "Buffer too small for answer fields"
    else
      let rdlength := be16 (bytes.getD (new_offset + 8) 0) (bytes.getD (new_offset + 9) 0)
      if bytes.length < new_offset + 10 + rdlength then
        Except.error "Buffer too small for RDATA"
      else
        Except.ok
          ({ name := name
             rtype := be16 (bytes.getD new_offset 0) (bytes.getD (new_offset + 1) 0)
             rclass := be16 (bytes.getD (new_offset + 2) 0) (bytes.getD (new_offset + 3) 0)
             ttl := be16 (bytes.getD (new_offset + 4) 0) (bytes.getD (new_offset + 5) 0) * 65536 +
                    be16 (bytes.getD (new_offset + 6) 0) (bytes.getD (new_offset + 7) 0)
             rdlength := rdlength
             rdata := (bytes.drop (new_offset + 10)).take rdlength },
           new_offset + 10 + rdlength)

/-- `DnsAnswer::to_bytes`. -/
def DnsAnswer.to_bytes (a : DnsAnswer) : Option (List Nat) :=
  (encode_domain_name a.name).map
    (fun nb => nb ++ u16_be a.rtype ++ u16_be a.rclass ++ u32_be a.ttl ++
      u16_be a.rdlength ++ a.rdata)

/-- `DnsAnswer::new`: `rdlength` is set from the data, truncated as by the
Rust `as u16` cast. -/
def DnsAnswer.new (name : List Nat) (rtype rclass ttl : Nat)
    (rdata : List Nat) : DnsAnswer :=
  { name := name
    rtype := rtype
    rclass := rclass
    ttl := ttl
    rdlength := rdata.length % 65536
    rdata := rdata }

/-- `DnsAnswer::new_a_record` (`RecordType::A = 1`, `RecordClass::IN = 1`). -/
def DnsAnswer.new_a_record (name : List Nat) (ttl : Nat) (ip : List Nat) :
    DnsAnswer :=
  DnsAnswer.new name 1 1 ttl ip

/-- `DnsAnswer::new_aaaa_record` (`RecordType::AAAA = 28`). -/
def DnsAnswer.new_aaaa_record (name : List Nat) (ttl : Nat) (ip : List Nat) :
    DnsAnswer :=
  DnsAnswer.new name 28 1 ttl ip

/-- The question-parsing loop of `parse_request`: decode `count` consecutive
questions starting at `offset`, threading the running offset. -/
def parseQuestions (bytes : List Nat) : Nat → Nat →
    Except String (List DnsQuestion × Nat)
  | offset, 0 => Except.ok ([], offset)
  | offset, count + 1 =>
    match DnsQuestion.from_bytes bytes offset with
    | Except.error e => Except.error e
    | Except.ok (q, new_offset) =>
      match parseQuestions bytes new_offset count with
      | Except.error e => Except.error e
      | Except.ok (qs, final_offset) => Except.ok (q :: qs, final_offset)

/-- `parse_request` from `dns_message.rs`.  The Rust code slices
`&buf[0..12]` before any length check, which panics when the buffer holds
fewer than 12 bytes: that panic is the `none` case here. -/
def parse_request (buf : List Nat) :
    Option (Except String (DnsHeader × List DnsQuestion)) :=
  if buf.length < 12 then none
  else
    match DnsHeader.from_bytes (buf.take 12) with
    | Except.error e => some (Except.error ("Failed to parse header: " ++ e))
    | Except.ok header =>
      match parseQuestions buf 12 header.question_count with
      | Except.error e => some (Except.error e)
      | Except.ok (questions, _) => some (Except.ok (header, questions))

/-- `build_single_question_query` from `forwarder.rs`; `none` models the
encode-time `panic!` propagated from `DnsQuestion::to_bytes`. -/
def build_single_question_query (original_id : Nat) (question : DnsQuestion) :
    Option (List Nat) :=
  (question.to_bytes).map
    (fun qb =>
      DnsHeader.to_bytes
        { id := original_id
          flags := 256
          question_count := 1
          answer_count := 0
          authority_count := 0
          additional_count := 0 } ++ qb)

/-! ## List helper lemmas -/

theorem getD_append_lt (l₁ l₂ : List Nat) (n : Nat) (h : n < l₁.length) :
    (l₁ ++ l₂).getD n 0 = l₁.getD n 0 := by
  induction l₁ generalizing n with
  | nil => simp at h
  | cons b rest ih =>
    cases n with
    | zero => rfl
    | succ m =>
      simp only [List.cons_append, List.getD_cons_succ]
      exact ih m (by simpa using h)

theorem take_append_le {α : Type} (l₁ l₂ : List α) (n : Nat)
    (h : n ≤ l₁.length) : (l₁ ++ l₂).take n = l₁.take n := by
  induction l₁ generalizing n with
  | nil =>
    cases n with
    | zero => rfl
    | succ m => simp at h
  | cons b rest ih =>
    cases n with
    | zero => rfl
    | succ m =>
      simp only [List.cons_append, List.take_succ_cons]
      rw [ih m (by simpa using h)]

theorem drop_append_le {α : Type} (l₁ l₂ : List α) (n : Nat)
    (h : n ≤ l₁.length) : (l₁ ++ l₂).drop n = l₁.drop n ++ l₂ := by
  induction l₁ generalizing n with
  | nil =>
    cases n with
    | zero => rfl
    | succ m => simp at h
  | cons b rest ih =>
    cases n with
    | zero => rfl
    | succ m =>
      simp only [List.cons_append, List.drop_succ_cons]
      exact ih m (by simpa using h)

/-! ## Fuel lemmas for the name-parsing loop -/

/-- More fuel never changes a result that was already reached. -/
theorem aux_mono (bytes : List Nat) :
    ∀ f₁ f₂ offset labels jumped joff jumps r,
      parseDomainNameAux bytes f₁ offset labels jumped joff jumps = some r →
      f₁ ≤ f₂ →
      parseDomainNameAux bytes f₂ offset labels jumped joff jumps = some r := by
  intro f₁
  induction f₁ with
  | zero =>
    intro f₂ offset labels jumped joff jumps r h
    simp [parseDomainNameAux] at h
  | succ f ih =>
    intro f₂ offset labels jumped joff jumps r h hle
    obtain ⟨f₂', rfl⟩ : ∃ k, f₂ = k + 1 := ⟨f₂ - 1, by omega⟩
    simp only [parseDomainNameAux] at h ⊢
    split_ifs at h ⊢
    all_goals first
      | exact h
      | exact ih _ _ _ _ _ _ _ h (by omega)

/-- `parseFuel`-sized fuel always suffices: the loop terminates within the
fuel bound for every buffer and every starting state with at most 5 jumps
consumed. -/
theorem aux_isSome (bytes : List Nat) :
    ∀ fuel offset labels jumped joff jumps,
      jumps ≤ 5 →
      (6 - jumps) * (bytes.length + 2) + (bytes.length + 1 - offset) ≤ fuel →
      (parseDomainNameAux bytes fuel offset labels jumped joff jumps).isSome
        = true := by
  intro fuel
  induction fuel with
  | zero =>
    intro offset labels jumped joff jumps hj hf
    exfalso
    have h1 : 1 ≤ 6 - jumps := by omega
    have h2 := Nat.mul_le_mul_right (bytes.length + 2) h1
    omega
  | succ f ih =>
    intro offset labels jumped joff jumps hj hf
    simp only [parseDomainNameAux]
    split_ifs
    all_goals try rfl
    all_goals apply ih _ _ _ _ _ (by omega)
    all_goals
      first
        | (rw [show (6 : Nat) - jumps = (6 - (jumps + 1)) + 1 from by omega,
              Nat.succ_mul] at hf
           omega)
        | omega

/-- Once `jumped` is set, the stored `jump_offset` is a pure passenger: it
reappears verbatim as the returned next-offset and influences nothing else. -/
theorem aux_passenger (bytes : List Nat) :
    ∀ fuel offset labels a b jumps,
      parseDomainNameAux bytes fuel offset labels true a jumps =
      Option.map (Except.map (fun p => (p.1, a)))
        (parseDomainNameAux bytes fuel offset labels true b jumps) := by
  intro fuel
  induction fuel with
  | zero => intro offset labels a b jumps; rfl
  | succ f ih =>
    intro offset labels a b jumps
    simp only [parseDomainNameAux]
    split_ifs
    all_goals first
      | rfl
      | exact ih _ _ _ _ _

/-- Lowering the consumed-jump counter (and changing the `jumped`/offset
bookkeeping) preserves success and the decoded name. -/
theorem aux_jumps_le (bytes : List Nat) :
    ∀ fuel offset labels jumped a jumps jumped' a' jumps' s x,
      parseDomainNameAux bytes fuel offset labels jumped a jumps =
        some (Except.ok (s, x)) →
      jumps' ≤ jumps →
      ∃ x', parseDomainNameAux bytes fuel offset labels jumped' a' jumps' =
        some (Except.ok (s, x')) := by
  intro fuel
  induction fuel with
  | zero =>
    intro offset labels jumped a jumps jumped' a' jumps' s x h
    simp [parseDomainNameAux] at h
  | succ f ih =>
    intro offset labels jumped a jumps jumped' a' jumps' s x h hle
    simp only [parseDomainNameAux] at h ⊢
    by_cases h1 : bytes.length ≤ offset
    · rw [if_pos h1] at h
      exact absurd h (by simp)
    · rw [if_neg h1] at h ⊢
      by_cases h2 : bytes.getD offset 0 &&& 192 = 192
      · rw [if_pos h2] at h ⊢
        by_cases h3 : bytes.length ≤ offset + 1
        · rw [if_pos h3] at h
          exact absurd h (by simp)
        · rw [if_neg h3] at h ⊢
          by_cases h4 : 5 < jumps + 1
          · rw [if_pos h4] at h
            exact absurd h (by simp)
          · rw [if_neg h4] at h
            rw [if_neg (by omega)]
            exact ih _ _ _ _ _ _ _ _ _ _ h (by omega)
      · rw [if_neg h2] at h ⊢
        by_cases h5 : bytes.getD offset 0 = 0
        · rw [if_pos h5] at h ⊢
          simp only [Option.some.injEq, Except.ok.injEq, Prod.mk.injEq] at h
          refine ⟨if jumped' = true then a' else offset + 1, ?_⟩
          rw [h.1]
        · rw [if_neg h5] at h ⊢
          by_cases h6 : bytes.length < offset + 1 + bytes.getD offset 0
          · rw [if_pos h6] at h
            exact absurd h (by simp)
          · rw [if_neg h6] at h ⊢
            by_cases h7 : utf8Valid
                ((bytes.drop (offset + 1)).take (bytes.getD offset 0)) = true
            · rw [if_pos h7] at h ⊢
              exact ih _ _ _ _ _ _ _ _ _ _ h (by omega)
            · rw [if_neg h7] at h
              exact absurd h (by simp)

/-- Appending bytes to the buffer preserves any successful name decode. -/
theorem aux_append (bytes junk : List Nat) :
    ∀ fuel offset labels jumped joff jumps r,
      parseDomainNameAux bytes fuel offset labels jumped joff jumps =
        some (Except.ok r) →
      parseDomainNameAux (bytes ++ junk) fuel offset labels jumped joff jumps =
        some (Except.ok r) := by
  intro fuel
  induction fuel with
  | zero =>
    intro offset labels jumped joff jumps r h
    simp [parseDomainNameAux] at h
  | succ f ih =>
    intro offset labels jumped joff jumps r h
    simp only [parseDomainNameAux] at h
    by_cases h1 : bytes.length ≤ offset
    · rw [if_pos h1] at h
      exact absurd h (by simp)
    · rw [if_neg h1] at h
      have hg : (bytes ++ junk).getD offset 0 = bytes.getD offset 0 :=
        getD_append_lt bytes junk offset (by omega)
      have hlen : bytes.length ≤ (bytes ++ junk).length := by
        simp
      simp only [parseDomainNameAux, hg]
      rw [if_neg (by omega)]
      by_cases h2 : bytes.getD offset 0 &&& 192 = 192
      · rw [if_pos h2] at h ⊢
        by_cases h3 : bytes.length ≤ offset + 1
        · rw [if_pos h3] at h
          exact absurd h (by simp)
        · have hg1 : (bytes ++ junk).getD (offset + 1) 0 =
              bytes.getD (offset + 1) 0 :=
            getD_append_lt bytes junk (offset + 1) (by omega)
          rw [if_neg h3] at h
          rw [if_neg (by omega), hg1]
          by_cases h4 : 5 < jumps + 1
          · rw [if_pos h4] at h
            exact absurd h (by simp)
          · rw [if_neg h4] at h ⊢
            exact ih _ _ _ _ _ _ h
      · rw [if_neg h2] at h ⊢
        by_cases h5 : bytes.getD offset 0 = 0
        · rw [if_pos h5] at h ⊢
          exact h
        · rw [if_neg h5] at h ⊢
          by_cases h6 : bytes.length < offset + 1 + bytes.getD offset 0
          · rw [if_pos h6] at h
            exact absurd h (by simp)
          · rw [if_neg h6] at h
            rw [if_neg (by omega)]
            have hdt : ((bytes ++ junk).drop (offset + 1)).take
                (bytes.getD offset 0) =
                (bytes.drop (offset + 1)).take (bytes.getD offset 0) := by
              rw [drop_append_le bytes junk (offset + 1) (by omega)]
              exact take_append_le _ _ _ (by simp only [List.length_drop]; omega)
            rw [hdt]
            by_cases h7 :
                utf8Valid ((bytes.drop (offset + 1)).take (bytes.getD offset 0)) = true
            · rw [if_pos h7] at h ⊢
              exact ih _ _ _ _ _ _ h
            · rw [if_neg h7] at h
              exact absurd h (by simp)

/-- The name decode at canonical fuel always yields a value, and
`parse_domain_name` returns exactly that value. -/
theorem parse_some (bytes : List Nat) (offset : Nat) :
    parseDomainNameAux bytes (parseFuel bytes) offset [] false offset 0 =
      some (parse_domain_name bytes offset) := by
  have h := aux_isSome bytes (parseFuel bytes) offset [] false offset 0
    (by omega) (by unfold parseFuel; omega)
  obtain ⟨r, hr⟩ := Option.isSome_iff_exists.mp h
  rw [hr]
  unfold parse_domain_name
  rw [hr]
  rfl

/-- `offset` heads a chain of `k` in-bounds compression pointers. -/
def ptrChain (bytes : List Nat) : Nat → Nat → Bool
  | _, 0 => true
  | offset, k + 1 =>
    decide (offset + 1 < bytes.length) &&
    decide (bytes.getD offset 0 &&& 192 = 192) &&
    ptrChain bytes (be16 (bytes.getD offset 0 &&& 63) (bytes.getD (offset + 1) 0)) k

/-- Following a pointer chain long enough to exhaust the jump budget always
ends in the compression-loop error. -/
theorem aux_chain_error (bytes : List Nat) :
    ∀ k offset labels jumped joff jumps fuel,
      1 ≤ k → 6 ≤ jumps + k → jumps ≤ 5 → k ≤ fuel →
      ptrChain bytes offset k = true →
      parseDomainNameAux bytes fuel offset labels jumped joff jumps =
        some (Except.error "Too many jumps while parsing domain name") := by
  intro k
  induction k with
  | zero => intro offset labels jumped joff jumps fuel h1; omega
  | succ k ih =>
    intro offset labels jumped joff jumps fuel h1 h6 hj hfuel hchain
    obtain ⟨f, rfl⟩ : ∃ f, fuel = f + 1 := ⟨fuel - 1, by omega⟩
    simp only [ptrChain, Bool.and_eq_true, decide_eq_true_eq] at hchain
    obtain ⟨⟨hin, hmask⟩, hrest⟩ := hchain
    simp only [parseDomainNameAux]
    rw [if_neg (by omega), if_pos hmask, if_neg (by omega)]
    by_cases h5 : 5 < jumps + 1
    · rw [if_pos h5]
    · rw [if_neg h5]
      exact ih _ _ _ _ _ _ (by omega) (by omega) (by omega) (by omega) hrest

/-! ## Bit-packing lemmas for the flags and header codecs -/

theorem or_two_pow_add (k : Nat) : ∀ m a, a < 2 ^ k → (m * 2 ^ k) ||| a = m * 2 ^ k + a := by
  induction k with
  | zero =>
    intro m a h
    have ha : a = 0 := by omega
    subst ha
    simp
  | succ k ih =>
    intro m a h
    have hlt : a / 2 < 2 ^ k := by
      have h2 : 2 ^ (k + 1) = 2 * 2 ^ k := by ring
      omega
    have hm : m * 2 ^ (k + 1) = Nat.bit false (m * 2 ^ k) := by
      simp [Nat.bit_false]
      ring
    by_cases hp : a % 2 = 1
    · have ha : a = Nat.bit true (a / 2) := by
        simp [Nat.bit_true]
        omega
      rw [hm, ha, Nat.lor_bit, ih _ _ hlt]
      simp [Nat.bit_true, Nat.bit_false]
      omega
    · have ha : a = Nat.bit false (a / 2) := by
        simp [Nat.bit_false]
        omega
      rw [hm, ha, Nat.lor_bit, ih _ _ hlt]
      simp [Nat.bit_false]
      omega

theorem and_two_pow_div_mod (x k : Nat) : x &&& 2 ^ k = x / 2 ^ k % 2 * 2 ^ k := by
  rw [Nat.and_two_pow, Nat.testBit_to_div_mod]
  rcases Nat.mod_two_eq_zero_or_one (x / 2 ^ k) with h | h <;> simp [h]

theorem to_u16_eq (f : DnsFlags) :
    f.to_u16 =
      (if f.qr then 1 else 0) * 2 ^ 15 + f.opcode % 16 * 2 ^ 11 +
      (if f.aa then 1 else 0) * 2 ^ 10 + (if f.tc then 1 else 0) * 2 ^ 9 +
      (if f.rd then 1 else 0) * 2 ^ 8 + (if f.ra then 1 else 0) * 2 ^ 7 +
      f.z % 8 * 2 ^ 4 + f.rcode % 16 := by
  unfold DnsFlags.to_u16
  rw [show f.opcode &&& 15 = f.opcode % 16 from Nat.and_pow_two_sub_one_eq_mod f.opcode 4]
  rw [show f.z &&& 7 = f.z % 8 from Nat.and_pow_two_sub_one_eq_mod f.z 3]
  rw [show f.rcode &&& 15 = f.rcode % 16 from Nat.and_pow_two_sub_one_eq_mod f.rcode 4]
  simp only [Nat.shiftLeft_eq, one_mul]
  rw [show (if f.qr then 2 ^ 15 else 0) = (if f.qr then (1:Nat) else 0) * 2 ^ 15 from by
    cases f.qr <;> simp]
  rw [or_two_pow_add 15 _ _ (by omega : f.opcode % 16 * 2 ^ 11 < 2 ^ 15)]
  rw [show (if f.qr then (1:Nat) else 0) * 2 ^ 15 + f.opcode % 16 * 2 ^ 11 =
      ((if f.qr then (1:Nat) else 0) * 2 ^ 4 + f.opcode % 16) * 2 ^ 11 from by ring]
  rw [show (if f.aa then 2 ^ 10 else (0:Nat)) = (if f.aa then (1:Nat) else 0) * 2 ^ 10 from by
    cases f.aa <;> simp]
  rw [or_two_pow_add 11 _ _ (by cases f.aa <;> norm_num :
      (if f.aa then (1:Nat) else 0) * 2 ^ 10 < 2 ^ 11)]
  rw [show ((if f.qr then (1:Nat) else 0) * 2 ^ 4 + f.opcode % 16) * 2 ^ 11 +
      (if f.aa then (1:Nat) else 0) * 2 ^ 10 =
      (((if f.qr then (1:Nat) else 0) * 2 ^ 4 + f.opcode % 16) * 2 +
       (if f.aa then (1:Nat) else 0)) * 2 ^ 10 from by ring]
  rw [show (if f.tc then 2 ^ 9 else (0:Nat)) = (if f.tc then (1:Nat) else 0) * 2 ^ 9 from by
    cases f.tc <;> simp]
  rw [or_two_pow_add 10 _ _ (by cases f.tc <;> norm_num :
      (if f.tc then (1:Nat) else 0) * 2 ^ 9 < 2 ^ 10)]
  rw [show (((if f.qr then (1:Nat) else 0) * 2 ^ 4 + f.opcode % 16) * 2 +
       (if f.aa then (1:Nat) else 0)) * 2 ^ 10 + (if f.tc then (1:Nat) else 0) * 2 ^ 9 =
      ((((if f.qr then (1:Nat) else 0) * 2 ^ 4 + f.opcode % 16) * 2 +
       (if f.aa then (1:Nat) else 0)) * 2 + (if f.tc then (1:Nat) else 0)) * 2 ^ 9 from by ring]
  rw [show (if f.rd then 2 ^ 8 else (0:Nat)) = (if f.rd then (1:Nat) else 0) * 2 ^ 8 from by
    cases f.rd <;> simp]
  rw [or_two_pow_add 9 _ _ (by cases f.rd <;> norm_num :
      (if f.rd then (1:Nat) else 0) * 2 ^ 8 < 2 ^ 9)]
  rw [show ((((if f.qr then (1:Nat) else 0) * 2 ^ 4 + f.opcode % 16) * 2 +
       (if f.aa then (1:Nat) else 0)) * 2 + (if f.tc then (1:Nat) else 0)) * 2 ^ 9 +
       (if f.rd then (1:Nat) else 0) * 2 ^ 8 =
      (((((if f.qr then (1:Nat) else 0) * 2 ^ 4 + f.opcode % 16) * 2 +
       (if f.aa then (1:Nat) else 0)) * 2 + (if f.tc then (1:Nat) else 0)) * 2 +
       (if f.rd then (1:Nat) else 0)) * 2 ^ 8 from by ring]
  rw [show (if f.ra then 2 ^ 7 else (0:Nat)) = (if f.ra then (1:Nat) else 0) * 2 ^ 7 from by
    cases f.ra <;> simp]
  rw [or_two_pow_add 8 _ _ (by cases f.ra <;> norm_num :
      (if f.ra then (1:Nat) else 0) * 2 ^ 7 < 2 ^ 8)]
  rw [show (((((if f.qr then (1:Nat) else 0) * 2 ^ 4 + f.opcode % 16) * 2 +
       (if f.aa then (1:Nat) else 0)) * 2 + (if f.tc then (1:Nat) else 0)) * 2 +
       (if f.rd then (1:Nat) else 0)) * 2 ^ 8 + (if f.ra then (1:Nat) else 0) * 2 ^ 7 =
      ((((((if f.qr then (1:Nat) else 0) * 2 ^ 4 + f.opcode % 16) * 2 +
       (if f.aa then (1:Nat) else 0)) * 2 + (if f.tc then (1:Nat) else 0)) * 2 +
       (if f.rd then (1:Nat) else 0)) * 2 + (if f.ra then (1:Nat) else 0)) * 2 ^ 7 from by ring]
  rw [or_two_pow_add 7 _ _ (by omega : f.z % 8 * 2 ^ 4 < 2 ^ 7)]
  rw [show ((((((if f.qr then (1:Nat) else 0) * 2 ^ 4 + f.opcode % 16) * 2 +
       (if f.aa then (1:Nat) else 0)) * 2 + (if f.tc then (1:Nat) else 0)) * 2 +
       (if f.rd then (1:Nat) else 0)) * 2 + (if f.ra then (1:Nat) else 0)) * 2 ^ 7 +
       f.z % 8 * 2 ^ 4 =
      (((((((if f.qr then (1:Nat) else 0) * 2 ^ 4 + f.opcode % 16) * 2 +
       (if f.aa then (1:Nat) else 0)) * 2 + (if f.tc then (1:Nat) else 0)) * 2 +
       (if f.rd then (1:Nat) else 0)) * 2 + (if f.ra then (1:Nat) else 0)) * 2 ^ 3 +
       f.z % 8) * 2 ^ 4 from by ring]
  rw [or_two_pow_add 4 _ _ (by omega : f.rcode % 16 < 2 ^ 4)]

theorem flags_to_from (x : Nat) (hx : x < 65536) :
    (DnsFlags.from_u16 x).to_u16 = x := by
  rw [to_u16_eq]
  simp only [DnsFlags.from_u16]
  simp only [Nat.shiftLeft_eq, one_mul, Nat.shiftRight_eq_div_pow]
  rw [and_two_pow_div_mod x 15, and_two_pow_div_mod x 10, and_two_pow_div_mod x 9,
      and_two_pow_div_mod x 8, and_two_pow_div_mod x 7]
  rw [show x &&& 15 = x % 16 from Nat.and_pow_two_sub_one_eq_mod x 4]
  rw [show x / 2 ^ 11 &&& 15 = x / 2 ^ 11 % 16 from Nat.and_pow_two_sub_one_eq_mod _ 4]
  rw [show x / 2 ^ 4 &&& 7 = x / 2 ^ 4 % 8 from Nat.and_pow_two_sub_one_eq_mod _ 3]
  rcases Nat.mod_two_eq_zero_or_one (x / 2 ^ 15) with h15 | h15 <;>
  rcases Nat.mod_two_eq_zero_or_one (x / 2 ^ 10) with h10 | h10 <;>
  rcases Nat.mod_two_eq_zero_or_one (x / 2 ^ 9) with h9 | h9 <;>
  rcases Nat.mod_two_eq_zero_or_one (x / 2 ^ 8) with h8 | h8 <;>
  rcases Nat.mod_two_eq_zero_or_one (x / 2 ^ 7) with h7 | h7 <;>
  simp only [h15, h10, h9, h8, h7] <;> simp <;> omega

set_option maxHeartbeats 3200000 in
theorem flags_from_to (f : DnsFlags) (ho : f.opcode < 16) (hz : f.z < 8)
    (hc : f.rcode < 16) : DnsFlags.from_u16 f.to_u16 = f := by
  obtain ⟨q, o, a, t, r, ra, z, rc⟩ := f
  simp only at ho hz hc
  rw [to_u16_eq]
  simp only
  simp only [DnsFlags.from_u16, DnsFlags.mk.injEq]
  simp only [Nat.shiftLeft_eq, one_mul, Nat.shiftRight_eq_div_pow]
  rw [and_two_pow_div_mod _ 15, and_two_pow_div_mod _ 10, and_two_pow_div_mod _ 9,
      and_two_pow_div_mod _ 8, and_two_pow_div_mod _ 7]
  rw [show ∀ y : Nat, y &&& 15 = y % 16 from fun y => Nat.and_pow_two_sub_one_eq_mod y 4]
  rw [show ∀ y : Nat, y &&& 15 = y % 16 from fun y => Nat.and_pow_two_sub_one_eq_mod y 4]
  rw [show ∀ y : Nat, y &&& 7 = y % 8 from fun y => Nat.and_pow_two_sub_one_eq_mod y 3]
  cases q <;> cases a <;> cases t <;> cases r <;> cases ra <;>
    simp <;>
    constructor <;> omega

theorem header_from_to (h : DnsHeader) (h1 : h.id < 65536) (h2 : h.flags < 65536)
    (h3 : h.question_count < 65536) (h4 : h.answer_count < 65536)
    (h5 : h.authority_count < 65536) (h6 : h.additional_count < 65536) :
    DnsHeader.from_bytes h.to_bytes = Except.ok h := by
  obtain ⟨i, fl, qd, an, ns, ar⟩ := h
  simp only at h1 h2 h3 h4 h5 h6
  simp only [DnsHeader.to_bytes, DnsHeader.from_bytes, u16_be, be16,
    List.cons_append, List.nil_append, List.length_cons, List.length_nil,
    List.getD_cons_zero, List.getD_cons_succ]
  rw [if_neg (by omega)]
  simp only [Except.ok.injEq, DnsHeader.mk.injEq]
  refine ⟨by omega, by omega, by omega, by omega, by omega, by omega⟩

theorem from_u16_opcode_lt (x : Nat) : (DnsFlags.from_u16 x).opcode < 16 := by
  simp only [DnsFlags.from_u16]
  rw [show (x >>> 11) &&& 15 = (x >>> 11) % 16 from Nat.and_pow_two_sub_one_eq_mod _ 4]
  omega

/-- C5: for every request header `h` and count `n`, `create_response_header`
returns a header whose decoded flags have `qr = true`, `opcode` and `rd`
echoed from `h`, `aa = tc = ra = false`, `z = 0`, `rcode = 0` when the
request opcode is 0 and `4` otherwise, with `id` and `question_count`
echoed, `answer_count = n`, and zero authority/additional counts. -/
theorem create_response_header_spec (h : DnsHeader) (n : Nat) :
    (DnsFlags.from_u16 (create_response_header h n).flags).qr = true ∧
    (DnsFlags.from_u16 (create_response_header h n).flags).opcode =
      (DnsFlags.from_u16 h.flags).opcode ∧
    (DnsFlags.from_u16 (create_response_header h n).flags).aa = false ∧
    (DnsFlags.from_u16 (create_response_header h n).flags).tc = false ∧
    (DnsFlags.from_u16 (create_response_header h n).flags).rd =
      (DnsFlags.from_u16 h.flags).rd ∧
    (DnsFlags.from_u16 (create_response_header h n).flags).ra = false ∧
    (DnsFlags.from_u16 (create_response_header h n).flags).z = 0 ∧
    (DnsFlags.from_u16 (create_response_header h n).flags).rcode =
      (if (DnsFlags.from_u16 h.flags).opcode = 0 then 0 else 4) ∧
    (create_response_header h n).id = h.id ∧
    (create_response_header h n).question_count = h.question_count ∧
    (create_response_header h n).answer_count = n ∧
    (create_response_header h n).authority_count = 0 ∧
    (create_response_header h n).additional_count = 0 := by
  have hflags : DnsFlags.from_u16 (create_response_header h n).flags =
      ⟨true, (DnsFlags.from_u16 h.flags).opcode, false, false,
       (DnsFlags.from_u16 h.flags).rd, false, 0,
       if (DnsFlags.from_u16 h.flags).opcode = 0 then 0 else 4⟩ := by
    have he : (create_response_header h n).flags = DnsFlags.to_u16
        ⟨true, (DnsFlags.from_u16 h.flags).opcode, false, false,
         (DnsFlags.from_u16 h.flags).rd, false, 0,
         if (DnsFlags.from_u16 h.flags).opcode = 0 then 0 else 4⟩ := by
      simp only [create_response_header]
    rw [he]
    exact flags_from_to _ (from_u16_opcode_lt h.flags) (by norm_num)
      (by split <;> norm_num)
  refine ⟨?_, ?_, ?_, ?_, ?_, ?_, ?_, ?_, ?_, ?_, ?_, ?_, ?_⟩ <;>
    first
      | rw [hflags]
      | simp [create_response_header]

/-! ## Name-codec lemmas -/

theorem getD_append_self (l₁ : List Nat) (x : Nat) (l₂ : List Nat) :
    (l₁ ++ x :: l₂).getD l₁.length 0 = x := by
  induction l₁ with
  | nil => rfl
  | cons b rest ih => simpa using ih

theorem splitOnDot_ne_nil (n : List Nat) : splitOnDot n ≠ [] := by
  induction n with
  | nil => simp [splitOnDot]
  | cons b rest ih =>
    by_cases hb : b = 46
    · simp [splitOnDot, hb]
    · simp only [splitOnDot, if_neg hb]
      cases hsplit : splitOnDot rest <;> simp

theorem joinDots_splitOnDot (n : List Nat) : joinDots (splitOnDot n) = n := by
  induction n with
  | nil => rfl
  | cons b rest ih =>
    by_cases hb : b = 46
    · subst hb
      simp only [splitOnDot, if_pos rfl]
      obtain ⟨s, ss, hs⟩ : ∃ s ss, splitOnDot rest = s :: ss := by
        cases h : splitOnDot rest with
        | nil => exact absurd h (splitOnDot_ne_nil rest)
        | cons s ss => exact ⟨s, ss, rfl⟩
      rw [hs]
      rw [hs] at ih
      simpa [joinDots] using ih
    · simp only [splitOnDot, if_neg hb]
      obtain ⟨s, ss, hs⟩ : ∃ s ss, splitOnDot rest = s :: ss := by
        cases h : splitOnDot rest with
        | nil => exact absurd h (splitOnDot_ne_nil rest)
        | cons s ss => exact ⟨s, ss, rfl⟩
      rw [hs]
      rw [hs] at ih
      cases ss with
      | nil =>
        simp only [joinDots] at ih ⊢
        rw [ih]
      | cons s2 ss2 =>
        simp only [joinDots] at ih ⊢
        rw [List.cons_append, ih]

/-- The label-emitting loop succeeds and produces the length-prefixed
encoding of the non-empty pieces whenever no piece exceeds 63 bytes. -/
theorem encodeLabels_eq (ls : List (List Nat)) (h : ∀ l ∈ ls, l.length ≤ 63) :
    encodeLabels ls =
      some ((ls.filter (fun l => !l.isEmpty)).flatMap
        (fun l => l.length :: l) ++ [0]) := by
  induction ls with
  | nil => rfl
  | cons l ls ih =>
    by_cases hl : l.isEmpty
    · simp only [encodeLabels, if_pos hl, List.filter_cons]
      rw [ih (fun x hx => h x (List.mem_cons_of_mem l hx))]
      simp [hl]
    · have h63 : ¬ 63 < l.length := by
        have := h l (List.mem_cons_self l ls)
        omega
      simp only [encodeLabels, if_neg hl, if_neg h63, List.filter_cons]
      rw [ih (fun x hx => h x (List.mem_cons_of_mem l hx))]
      simp [hl]

theorem small_and_192 (x : Nat) (h : x < 64) : x &&& 192 = 0 := by
  interval_cases x <;> rfl

theorem flatMap_enc_length_ge (ws : List (List Nat)) :
    ws.length ≤ (ws.flatMap (fun l => l.length :: l)).length := by
  induction ws with
  | nil => simp
  | cons w ws ih =>
    simp only [List.flatMap_cons, List.length_cons, List.cons_append,
      List.length_append]
    omega

/-- Running the name-parsing loop over the length-prefixed encoding of the
labels `ws` (placed after an arbitrary prefix) collects exactly `ws` and
stops just past the terminating zero byte. -/
theorem aux_parse_encoded (ws : List (List Nat)) :
    ∀ (pre : List Nat) (acc : List (List Nat)) (joff fuel : Nat),
      (∀ l ∈ ws, l ≠ [] ∧ l.length ≤ 63 ∧ utf8Valid l = true) →
      ws.length < fuel →
      parseDomainNameAux (pre ++ (ws.flatMap (fun l => l.length :: l) ++ [0]))
        fuel pre.length acc false joff 0 =
      some (Except.ok
        ((if (acc ++ ws).isEmpty then [46] else joinDots (acc ++ ws)),
         pre.length + ((ws.flatMap (fun l => l.length :: l)).length + 1))) := by
  induction ws with
  | nil =>
    intro pre acc joff fuel h hfuel
    obtain ⟨f, rfl⟩ : ∃ f, fuel = f + 1 := ⟨fuel - 1, by omega⟩
    simp only [List.flatMap_nil, List.nil_append, List.length_nil,
      List.append_nil, Nat.zero_add]
    simp only [parseDomainNameAux]
    rw [if_neg (by simp only [List.length_append, List.length_cons,
      List.length_nil]; omega)]
    rw [getD_append_self pre 0 []]
    rw [if_neg (by decide), if_pos rfl]
    rfl
  | cons w ws ih =>
    intro pre acc joff fuel h hfuel
    obtain ⟨f, rfl⟩ : ∃ f, fuel = f + 1 := ⟨fuel - 1, by omega⟩
    obtain ⟨hw_ne, hw63, hw_utf⟩ := h w (List.mem_cons_self w ws)
    have hw_pos : 0 < w.length := List.length_pos.mpr hw_ne
    have hbytes : pre ++ ((w :: ws).flatMap (fun l => l.length :: l) ++ [0]) =
        pre ++ w.length :: (w ++ (ws.flatMap (fun l => l.length :: l) ++ [0])) := by
      simp [List.flatMap_cons, List.append_assoc]
    rw [hbytes]
    simp only [parseDomainNameAux]
    rw [if_neg (by simp only [List.length_append, List.length_cons]; omega)]
    rw [getD_append_self pre w.length]
    rw [if_neg (by rw [small_and_192 w.length (by omega)]; omega)]
    rw [if_neg (by omega)]
    rw [if_neg (by simp only [List.length_append, List.length_cons]; omega)]
    have hdrop : (pre ++ w.length ::
        (w ++ (ws.flatMap (fun l => l.length :: l) ++ [0]))).drop
          (pre.length + 1) =
        w ++ (ws.flatMap (fun l => l.length :: l) ++ [0]) := by
      have e1 : pre ++ w.length ::
          (w ++ (ws.flatMap (fun l => l.length :: l) ++ [0])) =
          (pre ++ [w.length]) ++ (w ++ (ws.flatMap (fun l => l.length :: l) ++ [0])) := by
        simp [List.append_assoc]
      have e2 : pre.length + 1 = (pre ++ [w.length]).length := by
        simp
      rw [e1, e2, drop_append_le _ _ _ (by omega), List.drop_length,
        List.nil_append]
    have htake : ((pre ++ w.length ::
        (w ++ (ws.flatMap (fun l => l.length :: l) ++ [0]))).drop
          (pre.length + 1)).take w.length = w := by
      rw [hdrop, take_append_le _ _ _ (by omega), List.take_length]
    rw [htake, if_pos hw_utf]
    have hoff : pre.length + 1 + w.length = (pre ++ w.length :: w).length := by
      simp only [List.length_append, List.length_cons]
      omega
    have hbytes2 : pre ++ w.length ::
        (w ++ (ws.flatMap (fun l => l.length :: l) ++ [0])) =
        (pre ++ w.length :: w) ++ (ws.flatMap (fun l => l.length :: l) ++ [0]) := by
      simp [List.append_assoc]
    rw [hoff, hbytes2]
    rw [ih (pre ++ w.length :: w) (acc ++ [w]) joff f
      (fun l hl => h l (List.mem_cons_of_mem w hl)) (by
        simp only [List.length_cons] at hfuel ⊢
        omega)]
    have hacc : (acc ++ [w]) ++ ws = acc ++ (w :: ws) := by
      simp
    rw [hacc]
    have hlen : (pre ++ w.length :: w).length +
        ((ws.flatMap (fun l => l.length :: l)).length + 1) =
        pre.length + (((w :: ws).flatMap (fun l => l.length :: l)).length + 1) := by
      simp only [List.length_append, List.length_cons, List.flatMap_cons]
      omega
    rw [hlen]

/-! ## Claim theorems -/

/-- C3: for every buffer and start offset the name-parsing loop of
`parse_domain_name` finishes within the `parseFuel` iteration bound, and any
pointer chain of 6 in-bounds pointers (in particular a self-referential
pointer, chased repeatedly) makes it fail with the compression-loop error
instead of looping forever. -/
theorem parse_domain_name_terminates :
    (∀ (bytes : List Nat) (offset : Nat),
      (parseDomainNameAux bytes (parseFuel bytes) offset [] false offset 0).isSome
        = true) ∧
    (∀ (bytes : List Nat) (offset : Nat),
      ptrChain bytes offset 6 = true →
      parse_domain_name bytes offset =
        Except.error "Too many jumps while parsing domain name") := by
  constructor
  · intro bytes offset
    exact aux_isSome bytes (parseFuel bytes) offset [] false offset 0
      (by omega) (by unfold parseFuel; omega)
  · intro bytes offset hchain
    have h := aux_chain_error bytes 6 offset [] false offset 0
      (parseFuel bytes) (by omega) (by omega) (by omega)
      (by unfold parseFuel; omega) hchain
    unfold parse_domain_name
    rw [h]
    rfl

/-- C6: the header and flags codecs round-trip exactly: every 16-bit word
survives `from_u16` then `to_u16` (all used and reserved bits, `z`
included); every flags value with in-range `opcode`, `z`, `rcode` survives
`to_u16` then `from_u16`; and every header with 16-bit fields survives
`to_bytes` then `from_bytes`. -/
theorem header_codecs_roundtrip :
    (∀ x : Nat, x < 65536 → (DnsFlags.from_u16 x).to_u16 = x) ∧
    (∀ f : DnsFlags, f.opcode < 16 → f.z < 8 → f.rcode < 16 →
      DnsFlags.from_u16 f.to_u16 = f) ∧
    (∀ h : DnsHeader, h.id < 65536 → h.flags < 65536 →
      h.question_count < 65536 → h.answer_count < 65536 →
      h.authority_count < 65536 → h.additional_count < 65536 →
      DnsHeader.from_bytes h.to_bytes = Except.ok h) :=
  ⟨flags_to_from, flags_from_to, header_from_to⟩

/-- Witness for C6 at concrete values. -/
theorem header_codecs_roundtrip_witness :
    (DnsFlags.from_u16 43981).to_u16 = 43981 ∧
    DnsFlags.from_u16
        (DnsFlags.to_u16 ⟨true, 3, false, true, false, true, 5, 9⟩) =
      ⟨true, 3, false, true, false, true, 5, 9⟩ ∧
    DnsHeader.from_bytes (DnsHeader.to_bytes ⟨4660, 256, 1, 2, 3, 4⟩) =
      Except.ok ⟨4660, 256, 1, 2, 3, 4⟩ :=
  ⟨header_codecs_roundtrip.1 43981 (by norm_num),
   header_codecs_roundtrip.2.1 _ (by norm_num) (by norm_num) (by norm_num),
   header_codecs_roundtrip.2.2 _ (by norm_num) (by norm_num) (by norm_num)
     (by norm_num) (by norm_num) (by norm_num)⟩

/-- C2: for every domain name made of non-empty labels of at most 63 bytes
whose total encoding is at most 255 bytes, decoding the encoding from
offset 0 returns exactly the name together with the encoding's length. -/
theorem encode_parse_roundtrip (name : List Nat)
    (hlabels : ∀ l ∈ splitOnDot name,
      l ≠ [] ∧ l.length ≤ 63 ∧ utf8Valid l = true)
    (htotal : ((splitOnDot name).flatMap (fun l => l.length :: l)).length + 1
      ≤ 255) :
    ∃ enc, encode_domain_name name = some enc ∧
      parse_domain_name enc 0 = Except.ok (name, enc.length) := by
  have hne46 : name ≠ [46] := by
    intro he
    have hmem : ([] : List Nat) ∈ splitOnDot name := by
      rw [he]
      decide
    exact (hlabels [] hmem).1 rfl
  have henc : encode_domain_name name =
      some ((splitOnDot name).flatMap (fun l => l.length :: l) ++ [0]) := by
    unfold encode_domain_name
    rw [if_neg hne46]
    rw [encodeLabels_eq _ (fun l hl => (hlabels l hl).2.1)]
    have hfilter : (splitOnDot name).filter (fun l => !l.isEmpty) =
        splitOnDot name := by
      rw [List.filter_eq_self]
      intro l hl
      cases l with
      | nil => exact absurd rfl (hlabels [] hl).1
      | cons b bs => rfl
    rw [hfilter]
  refine ⟨_, henc, ?_⟩
  have hsplit_nonempty : (splitOnDot name).isEmpty = false := by
    cases hs : splitOnDot name with
    | nil => exact absurd hs (splitOnDot_ne_nil name)
    | cons s ss => rfl
  have hb := aux_parse_encoded (splitOnDot name) [] [] 0
    (parseFuel ((splitOnDot name).flatMap (fun l => l.length :: l) ++ [0]))
    hlabels
    (by
      have h1 := flatMap_enc_length_ge (splitOnDot name)
      unfold parseFuel
      simp only [List.length_append, List.length_cons, List.length_nil]
      omega)
  simp only [List.nil_append, List.length_nil] at hb
  unfold parse_domain_name
  rw [hb]
  simp only [Option.getD_some, hsplit_nonempty, Bool.false_eq_true,
    if_false, joinDots_splitOnDot]
  simp [List.length_append]

/-- Witness for C2: the name `example.com`. -/
theorem encode_parse_roundtrip_witness :
    (∀ l ∈ splitOnDot [101, 120, 97, 109, 112, 108, 101, 46, 99, 111, 109],
      l ≠ [] ∧ l.length ≤ 63 ∧ utf8Valid l = true) ∧
    ∃ enc,
      encode_domain_name [101, 120, 97, 109, 112, 108, 101, 46, 99, 111, 109] =
        some enc ∧
      parse_domain_name enc 0 =
        Except.ok (([101, 120, 97, 109, 112, 108, 101, 46, 99, 111, 109] :
          List Nat), enc.length) :=
  ⟨by decide, encode_parse_roundtrip _ (by decide) (by decide)⟩

/-- C8: every name all of whose dot-separated labels are at most 63 bytes
encodes without reaching the fatal `panic!` branch, to the length-prefixed
non-empty labels followed by a zero byte, with `.` encoding to the single
zero byte; and a name with a 64-byte label makes `encode_domain_name` hit
the process-aborting `panic!` (`none`) rather than return an error value. -/
theorem encode_domain_name_spec :
    (∀ name : List Nat, (∀ l ∈ splitOnDot name, l.length ≤ 63) →
      encode_domain_name name =
        some (((splitOnDot name).filter (fun l => !l.isEmpty)).flatMap
          (fun l => l.length :: l) ++ [0])) ∧
    encode_domain_name [46] = some [0] ∧
    encode_domain_name (List.replicate 64 97) = none := by
  refine ⟨?_, rfl, by decide⟩
  intro name h
  by_cases hn : name = [46]
  · subst hn
    decide
  · unfold encode_domain_name
    rw [if_neg hn]
    exact encodeLabels_eq _ h

/-- Witness for C8: the name `a.b`. -/
theorem encode_domain_name_spec_witness :
    encode_domain_name [97, 46, 98] =
      some (((splitOnDot [97, 46, 98]).filter (fun l => !l.isEmpty)).flatMap
        (fun l => l.length :: l) ++ [0]) :=
  encode_domain_name_spec.1 _ (by decide)

/-- Witness for C3: the self-referential pointer buffer `C0 00`. -/
theorem parse_domain_name_terminates_witness :
    ptrChain [192, 0] 0 6 = true ∧
    parse_domain_name [192, 0] 0 =
      Except.error "Too many jumps while parsing domain name" :=
  ⟨by decide, parse_domain_name_terminates.2 [192, 0] 0 (by decide)⟩

theorem or192_and192 (q : Nat) (h : q < 64) : (192 ||| q) &&& 192 = 192 := by
  interval_cases q <;> rfl

theorem or192_and63 (q : Nat) (h : q < 64) : (192 ||| q) &&& 63 = q := by
  interval_cases q <;> rfl

/-- C4 counterexample: in this buffer the name at offset 9 decodes
successfully (chasing exactly 5 pointers), and offset 11 holds a two-byte
pointer to offset 9, yet decoding at 11 fails with the compression-loop
error because the pointer at 11 consumes the jump budget's sixth jump —
so decoding at M does not always reproduce the result at K. -/
theorem pointer_decode_counterexample :
    parse_domain_name [0, 192, 0, 192, 1, 192, 3, 192, 5, 192, 7, 192, 9] 9 =
      Except.ok ([46], 11) ∧
    ([0, 192, 0, 192, 1, 192, 3, 192, 5, 192, 7, 192, 9] : List Nat).getD 11 0 =
      (192 ||| 9 / 256) ∧
    ([0, 192, 0, 192, 1, 192, 3, 192, 5, 192, 7, 192, 9] : List Nat).getD 12 0 =
      9 % 256 ∧
    11 + 1 < ([0, 192, 0, 192, 1, 192, 3, 192, 5, 192, 7, 192, 9] : List Nat).length ∧
    parse_domain_name [0, 192, 0, 192, 1, 192, 3, 192, 5, 192, 7, 192, 9] 11 =
      Except.error "Too many jumps while parsing domain name" :=
  ⟨rfl, rfl, rfl, by decide, rfl⟩

/-- C4 (amended): if the buffer holds at `M` a two-byte pointer encoding
offset `K`, and the name at `K` decodes successfully even when one pointer
jump has already been consumed (the chain from `K` uses at most 4 further
jumps), then decoding at `M` yields the same string as decoding at `K` and
returns next-offset `M + 2` — the first pointer fixes the return offset to
two bytes past itself no matter how many further pointers are chased. -/
theorem pointer_decode_spec (bytes : List Nat) (K M : Nat) (s : List Nat)
    (hK : K < 16384)
    (hM : M + 1 < bytes.length)
    (hb0 : bytes.getD M 0 = (192 ||| K / 256))
    (hb1 : bytes.getD (M + 1) 0 = K % 256)
    (hs : parseDomainNameAux bytes (parseFuel bytes) K [] true 0 1 =
      some (Except.ok (s, 0))) :
    (∃ off, parse_domain_name bytes K = Except.ok (s, off)) ∧
    parse_domain_name bytes M = Except.ok (s, M + 2) := by
  have hq : K / 256 < 64 := by omega
  constructor
  · obtain ⟨x', hx⟩ := aux_jumps_le bytes (parseFuel bytes) K [] true 0 1
      false K 0 s 0 hs (by omega)
    refine ⟨x', ?_⟩
    unfold parse_domain_name
    rw [hx]
    rfl
  · have hPF : parseFuel bytes = 7 * bytes.length + 13 := rfl
    obtain ⟨F, hF⟩ : ∃ F, parseFuel bytes = F + 1 :=
      ⟨7 * bytes.length + 12, by omega⟩
    have hFval : F = 7 * bytes.length + 12 := by omega
    have h1 : parseDomainNameAux bytes F K [] true 0 1 =
        some (Except.ok (s, 0)) := by
      have hss := aux_isSome bytes F K [] true 0 1 (by omega) (by omega)
      obtain ⟨r, hr⟩ := Option.isSome_iff_exists.mp hss
      have hmono := aux_mono bytes F (parseFuel bytes)
        K [] true 0 1 r hr (by omega)
      have hre : r = Except.ok (s, 0) := Option.some.inj (hmono.symm.trans hs)
      rw [hr, hre]
    have h2 := aux_passenger bytes F K [] (M + 2) 0 1
    rw [h1] at h2
    unfold parse_domain_name
    rw [hF]
    simp only [parseDomainNameAux]
    rw [if_neg (by omega), hb0, if_pos (or192_and192 (K / 256) hq),
      if_neg (by omega), if_neg (by omega), hb1]
    have hptr : be16 ((192 ||| K / 256) &&& 63) (K % 256) = K := by
      rw [or192_and63 (K / 256) hq]
      unfold be16
      omega
    rw [hptr]
    simp only [Bool.false_eq_true, if_false]
    rw [h2]
    rfl

/-- Witness for C4: labels at offset 0, pointer to them at offset 5. -/
theorem pointer_decode_spec_witness :
    (∃ off, parse_domain_name [3, 97, 98, 99, 0, 192, 0] 0 =
      Except.ok ([97, 98, 99], off)) ∧
    parse_domain_name [3, 97, 98, 99, 0, 192, 0] 5 =
      Except.ok ([97, 98, 99], 7) :=
  pointer_decode_spec [3, 97, 98, 99, 0, 192, 0] 0 5 [97, 98, 99]
    (by decide) (by decide) (by decide) (by decide) (by rfl)

/-- C1 evidence: `parse_request` slices `buf[0..12]` before any length
check, so on any buffer shorter than 12 bytes it panics (the `none` case)
instead of returning the truncation error, even though
`DnsHeader::from_bytes` itself would report that error on the same input. -/
theorem parse_request_short_buffer_panics :
    parse_request [] = none ∧
    parse_request (List.replicate 11 0) = none ∧
    DnsHeader.from_bytes [] = Except.error "Buffer too small for DNS header" ∧
    DnsHeader.from_bytes (List.replicate 11 0) =
      Except.error "Buffer too small for DNS header" :=
  ⟨rfl, rfl, rfl, rfl⟩

/-- C7: every `DnsAnswer` the program produces satisfies
`rdlength = rdata.length`: the `new` constructor (and the A/AAAA
convenience constructors) set `rdlength` from the data; `from_bytes` reads
exactly `rdlength` bytes of rdata after the 10 fixed bytes and advances
`next_offset` past exactly the rdata, and it fails with the truncation
error (rather than silently truncating) when fewer than `rdlength` bytes
remain. -/
theorem answer_rdlength_invariant :
    (∀ (name : List Nat) (rtype rclass ttl : Nat) (rdata : List Nat),
      rdata.length < 65536 →
      (DnsAnswer.new name rtype rclass ttl rdata).rdlength =
        (DnsAnswer.new name rtype rclass ttl rdata).rdata.length) ∧
    (∀ (name : List Nat) (ttl : Nat) (ip : List Nat), ip.length = 4 →
      (DnsAnswer.new_a_record name ttl ip).rdlength =
        (DnsAnswer.new_a_record name ttl ip).rdata.length) ∧
    (∀ (name : List Nat) (ttl : Nat) (ip : List Nat), ip.length = 16 →
      (DnsAnswer.new_aaaa_record name ttl ip).rdlength =
        (DnsAnswer.new_aaaa_record name ttl ip).rdata.length) ∧
    (∀ (bytes : List Nat) (offset : Nat) (a : DnsAnswer) (next : Nat),
      DnsAnswer.from_bytes bytes offset = Except.ok (a, next) →
      a.rdlength = a.rdata.length ∧
      ∃ no, parse_domain_name bytes offset = Except.ok (a.name, no) ∧
        next = no + 10 + a.rdlength) ∧
    (∀ (bytes : List Nat) (offset : Nat) (nm : List Nat) (no : Nat),
      parse_domain_name bytes offset = Except.ok (nm, no) →
      no + 10 ≤ bytes.length →
      bytes.length <
        no + 10 + be16 (bytes.getD (no + 8) 0) (bytes.getD (no + 9) 0) →
      DnsAnswer.from_bytes bytes offset =
        Except.error "Buffer too small for RDATA") := by
  have hnew : ∀ (name : List Nat) (rtype rclass ttl : Nat) (rdata : List Nat),
      rdata.length < 65536 →
      (DnsAnswer.new name rtype rclass ttl rdata).rdlength =
        (DnsAnswer.new name rtype rclass ttl rdata).rdata.length := by
    intro name rtype rclass ttl rdata h
    simp only [DnsAnswer.new]
    omega
  refine ⟨hnew, ?_, ?_, ?_, ?_⟩
  · intro name ttl ip hip
    exact hnew name 1 1 ttl ip (by omega)
  · intro name ttl ip hip
    exact hnew name 28 1 ttl ip (by omega)
  · intro bytes offset a next h
    unfold DnsAnswer.from_bytes at h
    cases hparse : parse_domain_name bytes offset with
    | error e =>
      rw [hparse] at h
      exact absurd h (by simp)
    | ok p =>
      obtain ⟨nm, no⟩ := p
      rw [hparse] at h
      dsimp only at h
      by_cases h10 : bytes.length < no + 10
      · rw [if_pos h10] at h
        exact absurd h (by simp)
      · rw [if_neg h10] at h
        by_cases hrd : bytes.length <
            no + 10 + be16 (bytes.getD (no + 8) 0) (bytes.getD (no + 9) 0)
        · rw [if_pos hrd] at h
          exact absurd h (by simp)
        · rw [if_neg hrd] at h
          simp only [Except.ok.injEq, Prod.mk.injEq] at h
          obtain ⟨ha, hnext⟩ := h
          subst ha
          refine ⟨?_, no, ?_, ?_⟩
          · simp only [List.length_take, List.length_drop]
            omega
          · rfl
          · rw [← hnext]
  · intro bytes offset nm no hparse h10 hrd
    unfold DnsAnswer.from_bytes
    rw [hparse]
    dsimp only
    rw [if_neg (by omega), if_pos hrd]

/-- Witness for C7: a root-name A record wire image. -/
theorem answer_rdlength_invariant_witness :
    ((DnsAnswer.new [46] 1 1 60 [8, 8, 8, 8]).rdlength =
      (DnsAnswer.new [46] 1 1 60 [8, 8, 8, 8]).rdata.length) ∧
    ((DnsAnswer.from_bytes [0, 0, 1, 0, 1, 0, 0, 0, 60, 0, 4, 1, 2, 3, 4] 0 =
        Except.ok ((⟨[46], 1, 1, 60, 4, [1, 2, 3, 4]⟩ : DnsAnswer), 15)) →
      (⟨[46], 1, 1, 60, 4, [1, 2, 3, 4]⟩ : DnsAnswer).rdlength =
      (⟨[46], 1, 1, 60, 4, [1, 2, 3, 4]⟩ : DnsAnswer).rdata.length) ∧
    DnsAnswer.from_bytes [0, 0, 1, 0, 1, 0, 0, 0, 60, 0, 5, 1, 2, 3, 4] 0 =
      Except.error "Buffer too small for RDATA" :=
  ⟨answer_rdlength_invariant.1 [46] 1 1 60 [8, 8, 8, 8] (by decide),
   fun h => (answer_rdlength_invariant.2.2.2.1 _ 0 _ 15 h).1,
   answer_rdlength_invariant.2.2.2.2
     [0, 0, 1, 0, 1, 0, 0, 0, 60, 0, 5, 1, 2, 3, 4] 0 [46] 1
     (by rfl) (by decide) (by decide)⟩

/-- C9: `build_single_question_query` produces the 12-byte header
(original transaction id, flags `0x0100` which decode to `RD = 1` and
every other bit 0, question count 1, zero other counts) followed
immediately by the question's encoding. -/
theorem build_single_question_query_spec (original_id : Nat)
    (q : DnsQuestion) (qb : List Nat)
    (hid : original_id < 65536)
    (hq : q.to_bytes = some qb) :
    ∃ out, build_single_question_query original_id q = some out ∧
      DnsHeader.from_bytes (out.take 12) = Except.ok
        { id := original_id, flags := 256, question_count := 1,
          answer_count := 0, authority_count := 0, additional_count := 0 } ∧
      out.drop 12 = qb ∧
      DnsFlags.from_u16 256 =
        { qr := false, opcode := 0, aa := false, tc := false, rd := true,
          ra := false, z := 0, rcode := 0 } := by
  unfold build_single_question_query
  rw [hq]
  simp only [Option.map_some']
  refine ⟨_, rfl, ?_, ?_, by decide⟩
  · have hlen : (DnsHeader.to_bytes
        { id := original_id, flags := 256, question_count := 1,
          answer_count := 0, authority_count := 0,
          additional_count := 0 }).length = 12 := by
      simp [DnsHeader.to_bytes, u16_be]
    rw [show (12 : Nat) = (DnsHeader.to_bytes
        { id := original_id, flags := 256, question_count := 1,
          answer_count := 0, authority_count := 0,
          additional_count := 0 }).length from hlen.symm]
    rw [take_append_le _ _ _ (by omega), List.take_length]
    exact header_from_to _ hid (by norm_num) (by norm_num) (by norm_num)
      (by norm_num) (by norm_num)
  · have hlen : (DnsHeader.to_bytes
        { id := original_id, flags := 256, question_count := 1,
          answer_count := 0, authority_count := 0,
          additional_count := 0 }).length = 12 := by
      simp [DnsHeader.to_bytes, u16_be]
    rw [show (12 : Nat) = (DnsHeader.to_bytes
        { id := original_id, flags := 256, question_count := 1,
          answer_count := 0, authority_count := 0,
          additional_count := 0 }).length from hlen.symm]
    rw [drop_append_le _ _ _ (by omega), List.drop_length, List.nil_append]

/-- Witness for C9: transaction id `0x1234` and an A question for `cc`. -/
theorem build_single_question_query_spec_witness :
    ∃ out, build_single_question_query 4660 ⟨[99, 99], 1, 1⟩ = some out ∧
      DnsHeader.from_bytes (out.take 12) = Except.ok
        { id := 4660, flags := 256, question_count := 1,
          answer_count := 0, authority_count := 0, additional_count := 0 } ∧
      out.drop 12 = [2, 99, 99, 0, 0, 1, 0, 1] ∧
      DnsFlags.from_u16 256 =
        { qr := false, opcode := 0, aa := false, tc := false, rd := true,
          ra := false, z := 0, rcode := 0 } :=
  build_single_question_query_spec 4660 ⟨[99, 99], 1, 1⟩
    [2, 99, 99, 0, 0, 1, 0, 1] (by decide) (by rfl)

/-- Appending bytes to the buffer preserves a successful name decode. -/
theorem parse_domain_name_append (bytes junk : List Nat) (offset : Nat)
    (r : List Nat × Nat)
    (h : parse_domain_name bytes offset = Except.ok r) :
    parse_domain_name (bytes ++ junk) offset = Except.ok r := by
  have h1 := parse_some bytes offset
  rw [h] at h1
  have h2 := aux_append bytes junk (parseFuel bytes) offset [] false offset 0 r h1
  have h3 := aux_mono (bytes ++ junk) (parseFuel bytes)
    (parseFuel (bytes ++ junk)) offset [] false offset 0 (Except.ok r) h2
    (by unfold parseFuel; simp only [List.length_append]; omega)
  unfold parse_domain_name
  rw [h3]
  rfl

/-- Appending bytes to the buffer preserves a successful question decode. -/
theorem question_from_bytes_append (bytes junk : List Nat) (offset : Nat)
    (q : DnsQuestion) (off' : Nat)
    (h : DnsQuestion.from_bytes bytes offset = Except.ok (q, off')) :
    DnsQuestion.from_bytes (bytes ++ junk) offset = Except.ok (q, off') := by
  unfold DnsQuestion.from_bytes at h ⊢
  cases hparse : parse_domain_name bytes offset with
  | error e =>
    rw [hparse] at h
    exact absurd h (by simp)
  | ok p =>
    obtain ⟨nm, no⟩ := p
    rw [hparse] at h
    dsimp only at h
    by_cases h4 : bytes.length < no + 4
    · rw [if_pos h4] at h
      exact absurd h (by simp)
    · rw [if_neg h4] at h
      rw [parse_domain_name_append bytes junk offset (nm, no) hparse]
      dsimp only
      rw [if_neg (by simp only [List.length_append]; omega)]
      rw [getD_append_lt bytes junk no (by omega),
        getD_append_lt bytes junk (no + 1) (by omega),
        getD_append_lt bytes junk (no + 2) (by omega),
        getD_append_lt bytes junk (no + 3) (by omega)]
      exact h

/-- Appending bytes to the buffer preserves a successful question-loop run. -/
theorem parseQuestions_append (bytes junk : List Nat) :
    ∀ (count offset : Nat) (qs : List DnsQuestion) (off' : Nat),
      parseQuestions bytes offset count = Except.ok (qs, off') →
      parseQuestions (bytes ++ junk) offset count = Except.ok (qs, off') := by
  intro count
  induction count with
  | zero =>
    intro offset qs off' h
    exact h
  | succ n ih =>
    intro offset qs off' h
    unfold parseQuestions at h ⊢
    cases hq : DnsQuestion.from_bytes bytes offset with
    | error e =>
      rw [hq] at h
      exact absurd h (by simp)
    | ok p =>
      obtain ⟨q, no⟩ := p
      rw [hq] at h
      dsimp only at h
      rw [question_from_bytes_append bytes junk offset q no hq]
      dsimp only
      cases hrest : parseQuestions bytes no n with
      | error e =>
        rw [hrest] at h
        exact absurd h (by simp)
      | ok p2 =>
        obtain ⟨qs2, off2⟩ := p2
        rw [hrest] at h
        rw [ih no qs2 off2 hrest]
        exact h

/-- C10 (amended): for every buffer of at least 12 bytes whose header
declares `question_count` questions and which holds that many consecutively
decodable questions from offset 12, `parse_request` succeeds with exactly
those questions, and still returns the identical result when arbitrary
trailing bytes are appended; the question loop is driven only by
`question_count`. -/
theorem parse_request_spec (buf : List Nat) (hdr : DnsHeader)
    (qs : List DnsQuestion) (off : Nat) (junk : List Nat)
    (h12 : 12 ≤ buf.length)
    (hh : DnsHeader.from_bytes (buf.take 12) = Except.ok hdr)
    (hq : parseQuestions buf 12 hdr.question_count = Except.ok (qs, off)) :
    parse_request buf = some (Except.ok (hdr, qs)) ∧
    parse_request (buf ++ junk) = some (Except.ok (hdr, qs)) := by
  constructor
  · unfold parse_request
    rw [if_neg (by omega), hh]
    dsimp only
    rw [hq]
  · unfold parse_request
    rw [if_neg (by simp only [List.length_append]; omega)]
    rw [take_append_le _ _ _ (by omega), hh]
    dsimp only
    rw [parseQuestions_append buf junk hdr.question_count 12 qs off hq]

/-- Witness for C10: a one-question request for `example.com` with two
trailing junk bytes. -/
theorem parse_request_spec_witness :
    parse_request
      [0, 1, 1, 0, 0, 1, 0, 0, 0, 0, 0, 0,
       7, 101, 120, 97, 109, 112, 108, 101, 3, 99, 111, 109, 0, 0, 1, 0, 1] =
      some (Except.ok (⟨1, 256, 1, 0, 0, 0⟩,
        [⟨[101, 120, 97, 109, 112, 108, 101, 46, 99, 111, 109], 1, 1⟩])) ∧
    parse_request
      ([0, 1, 1, 0, 0, 1, 0, 0, 0, 0, 0, 0,
        7, 101, 120, 97, 109, 112, 108, 101, 3, 99, 111, 109, 0, 0, 1, 0, 1] ++
       [255, 255]) =
      some (Except.ok (⟨1, 256, 1, 0, 0, 0⟩,
        [⟨[101, 120, 97, 109, 112, 108, 101, 46, 99, 111, 109], 1, 1⟩])) :=
  parse_request_spec
    [0, 1, 1, 0, 0, 1, 0, 0, 0, 0, 0, 0,
     7, 101, 120, 97, 109, 112, 108, 101, 3, 99, 111, 109, 0, 0, 1, 0, 1]
    ⟨1, 256, 1, 0, 0, 0⟩
    [⟨[101, 120, 97, 109, 112, 108, 101, 46, 99, 111, 109], 1, 1⟩] 29
    [255, 255] (by decide) (by rfl) (by rfl)

/-- C10 counterexample: two 18-byte requests that differ only in byte 7
(the low byte of the header's `answer_count` field) both parse, but yield
different question names, because the question's compression pointer
targets offset 6 inside the header: the count fields' bytes can be
consulted during parsing after all. -/
theorem parse_request_counterexample :
    ([0, 1, 0, 0, 0, 1, 1, 97, 0, 0, 0, 0, 192, 6, 0, 1, 0, 1] :
        List Nat).set 7 98 =
      [0, 1, 0, 0, 0, 1, 1, 98, 0, 0, 0, 0, 192, 6, 0, 1, 0, 1] ∧
    parse_request [0, 1, 0, 0, 0, 1, 1, 97, 0, 0, 0, 0, 192, 6, 0, 1, 0, 1] =
      some (Except.ok (⟨1, 0, 1, 353, 0, 0⟩, [⟨[97], 1, 1⟩])) ∧
    parse_request [0, 1, 0, 0, 0, 1, 1, 98, 0, 0, 0, 0, 192, 6, 0, 1, 0, 1] =
      some (Except.ok (⟨1, 0, 1, 354, 0, 0⟩, [⟨[98], 1, 1⟩])) :=
  ⟨rfl, rfl, rfl⟩

end DnsCodec
